import Mathlib

/-!
Shallow embedding of the reconciliation and sequential-execution core of the
cassandra-shift migration engine (src/index.js, current `Shift` variant, with
the CQL migration loader of src/unnamed/part_000).

External collaborators (the Cassandra driver, the filesystem, the `checksum`
npm library, the JS migration executor) are modelled as parameters:
  - a ledger table is a list of rows; `INSERT` appends a row;
  - each migration unit's runtime behaviour (`migration.execute`) is an
    `Option String` field: `none` means the payload succeeds, `some e` means
    it throws the error `e`;
  - the checksum of a unit, computed by `load()` from the backing file, is
    given by a parameter `fileChecksum : String → String` on the loader.
Wall-clock metadata of a ledger row (`installed_on`, `execution_time`) is
elided: it is real time, carries no information the engine ever reads back.
-/

/-- One row of the `migration_history` ledger table
(version, name, type, checksum, success; timing metadata elided). -/
structure AppliedRecord where
  version : Nat
  name : String
  mtype : String
  checksum : String
  success : Bool
deriving DecidableEq, Repr

/-- One loaded migration unit. `exec` abstracts the payload's runtime
behaviour against the cluster: `none` = `execute` succeeds,
`some e` = `execute` throws `e`. -/
structure Migration where
  version : Nat
  name : String
  mtype : String
  checksum : String
  exec : Option String
deriving DecidableEq, Repr

/-- The errors thrown by `checkAppliedMigrations` (src/index.js lines
279-302): halted history, version / name / checksum mismatch. -/
inductive CheckError where
  | halted (version : Nat) (name : String)
  | versionMismatch (applied defined : Nat)
  | nameMismatch (applied defined : String)
  | checksumMismatch (applied defined : String)
deriving DecidableEq, Repr

/-- The `for` loop of `checkAppliedMigrations` (src/index.js lines 287-302):
walk the applied records against the defined migrations index by index;
when `migrations[i]` is absent (`m == null`) the iteration `continue`s, and
since the defined list is dense every later index is also absent, so the
loop ends without throwing. -/
def checkOverlap : List AppliedRecord → List Migration → Option CheckError
  | [], _ => none
  | _ :: _, [] => none
  | am :: ams, m :: ms =>
    if am.version ≠ m.version then
      some (CheckError.versionMismatch am.version m.version)
    else if am.name ≠ m.name then
      some (CheckError.nameMismatch am.name m.name)
    else if am.checksum ≠ m.checksum then
      some (CheckError.checksumMismatch am.checksum m.checksum)
    else
      checkOverlap ams ms

/-- `checkAppliedMigrations` (src/index.js lines 273-303): empty history
validates trivially; otherwise the last applied record must have
`success = true` (else halted-history error), then the index-by-index
overlap checks run. `some e` models `throw e`, `none` models normal return. -/
def checkAppliedMigrations (appliedMigrations : List AppliedRecord)
    (migrations : List Migration) : Option CheckError :=
  match appliedMigrations.getLast? with
  | none => none
  | some lm =>
    if lm.success = false then
      some (CheckError.halted lm.version lm.name)
    else
      checkOverlap appliedMigrations migrations

/-- `getAppliedMigrations` (src/index.js lines 214-220): `SELECT *` of the
ledger rows, then `.sort(function(r1, r2) { return r1.version - r2.version })`. -/
def getAppliedMigrations (rows : List AppliedRecord) : List AppliedRecord :=
  rows.mergeSort (fun r1 r2 => decide (r1.version ≤ r2.version))

/-- The ledger row `executeMigration` inserts for migration `m` with outcome
flag `success` (src/index.js lines 321-333). -/
def recordOf (m : Migration) (success : Bool) : AppliedRecord :=
  { version := m.version, name := m.name, mtype := m.mtype,
    checksum := m.checksum, success := success }

/-- `executeMigration` (src/index.js lines 305-337): try the payload,
capture success or the thrown error, ALWAYS insert a ledger row, then
rethrow the cached error on failure. Returns the inserted row and the
rethrown error (if any). -/
def executeMigration (m : Migration) : AppliedRecord × Option String :=
  match m.exec with
  | none => (recordOf m true, none)
  | some err => (recordOf m false, some err)

/-- The payload of the `appliedMigration` event emitted after each
successful unit (src/index.js lines 373-377). -/
structure AppliedEvent where
  version : Nat
  name : String
  mtype : String
deriving DecidableEq, Repr

/-- Error surfaced by a whole `migrate` run: a reconciliation error or a
migration payload's rethrown execution error. -/
inductive MigrateError where
  | check (e : CheckError)
  | execution (e : String)
deriving DecidableEq, Repr

/-- Observable outcome of a `migrate` run: the ledger rows inserted (in
insertion order), the `appliedMigration` events emitted (in emission order),
and the terminating error if the run threw. -/
structure MigrateResult where
  writes : List AppliedRecord
  events : List AppliedEvent
  result : Option MigrateError
deriving DecidableEq, Repr

/-- The `appliedMigration` event payload for migration `m`. -/
def eventOf (m : Migration) : AppliedEvent :=
  { version := m.version, name := m.name, mtype := m.mtype }

/-- The execution loop of `Shift.migrate` (src/index.js lines 370-378):
run each pending unit in order; on failure the loop is abandoned after the
failing unit's ledger row is written (its `appliedMigration` event is NOT
emitted, since `executeMigration` rethrows before the `emit`). -/
def runPending : List Migration → MigrateResult
  | [] => { writes := [], events := [], result := none }
  | m :: ms =>
    match executeMigration m with
    | (rcd, some e) =>
      { writes := [rcd], events := [], result := some (MigrateError.execution e) }
    | (rcd, none) =>
      let r := runPending ms
      { writes := rcd :: r.writes, events := eventOf m :: r.events,
        result := r.result }

/-- `Shift.migrate` from the reconciliation step on (src/index.js lines
367-378), with the applied-history list already read and sorted: validate,
then execute `availableMigrations` from index `appliedMigrations.length`.
A reconciliation error aborts before any execution. -/
def migrateChecked (appliedMigrations : List AppliedRecord)
    (availableMigrations : List Migration) : MigrateResult :=
  match checkAppliedMigrations appliedMigrations availableMigrations with
  | some e => { writes := [], events := [], result := some (MigrateError.check e) }
  | none => runPending (availableMigrations.drop appliedMigrations.length)

/-- `Shift.migrate` (src/index.js lines 350-381) from the ledger read on:
read and sort the history, reconcile, execute the pending tail. Keyspace
and table setup (idempotent DDL against the external cluster) is elided. -/
def migrate (rows : List AppliedRecord)
    (availableMigrations : List Migration) : MigrateResult :=
  migrateChecked (getAppliedMigrations rows) availableMigrations

/-- One character of the regex class `[A-z0-9_]` (ASCII range A..z, which
also covers the bracket/underscore/backquote block, plus digits and
underscore, exactly as the class is written). -/
def isClassChar (c : Char) : Bool :=
  (decide ('A' ≤ c) && decide (c ≤ 'z')) ||
  (decide ('0' ≤ c) && decide (c ≤ '9')) ||
  decide (c = '_')

/-- A digit of `[0-9]`. -/
def isDigitChar (c : Char) : Bool :=
  decide ('0' ≤ c) && decide (c ≤ '9')

/-- `parseInt` on a digit string. -/
def digitsVal (ds : List Char) : Nat :=
  ds.foldl (fun acc c => acc * 10 + (c.toNat - '0'.toNat)) 0

/-- The filename match `^([0-9]+)__([A-z0-9_]*)\.(js|cql)$` of
`loadAvailableMigration` (src/index.js line 229): a non-empty maximal digit
run, a literal `__`, a run of class characters (which cannot contain a dot,
so the first dot after `__` must separate it from the extension), a dot,
and the extension `js` or `cql` ending the string. Returns the captured
(version, raw name, extension) or `none` when the regex does not match. -/
def parseMigrationFilename (s : String) : Option (Nat × String × String) :=
  let cs := s.data
  let ds := cs.takeWhile isDigitChar
  match ds, cs.dropWhile isDigitChar with
  | [], _ => none
  | _ :: _, '_' :: '_' :: tail =>
    let mid := tail.takeWhile (fun c => decide (c ≠ '.'))
    if mid.all isClassChar then
      match tail.dropWhile (fun c => decide (c ≠ '.')) with
      | '.' :: ext =>
        if ext = ['j', 's'] || ext = ['c', 'q', 'l'] then
          some (digitsVal ds, String.mk mid, String.mk ext)
        else none
      | _ => none
    else none
  | _ :: _, _ => none

/-- `prettyName` (src/index.js lines 222-226): underscores become spaces and
the first character is upper-cased. On the empty name (which the regex
permits, the middle group being starred) the source dereferences
`spaced[0]` of an empty string and throws a TypeError; that is `none`. -/
def prettyName (name : String) : Option String :=
  let spaced := name.data.map (fun c => if c = '_' then ' ' else c)
  match spaced with
  | [] => none
  | c :: rest => some (String.mk (Char.toUpper c :: rest))

/-- `loadAvailableMigration` (src/index.js lines 228-256): a filename that
does not match the pattern is skipped (`ok none`); a matching one builds a
unit whose version and name come from the captures, whose type tag comes
from the extension (`CQL` per src/unnamed/part_000; `JS` for the JS variant,
whose source is not in src/ — modelled from the spec: the `type` tag
identifies the execution strategy chosen by the extension), and whose
checksum `load()` computes from the backing file, abstracted by
`fileChecksum` on the file's path; `execOutcome` abstracts the loaded
payload's later runtime behaviour. An `error` models a thrown exception. -/
def loadAvailableMigration (fileChecksum : String → String)
    (execOutcome : String → Option String) (dir : String)
    (filename : String) : Except String (Option Migration) :=
  match parseMigrationFilename filename with
  | none => Except.ok none
  | some (version, rawName, ext) =>
    match prettyName rawName with
    | none => Except.error "TypeError"
    | some nm =>
      let p := dir ++ "/" ++ filename
      Except.ok (some { version := version, name := nm,
                        mtype := if ext = "js" then "JS" else "CQL",
                        checksum := fileChecksum p, exec := execOutcome p })

/-- `loadAvailableMigrations` (src/index.js lines 258-271): walk the
directory listing in the order the filesystem returns it, load each file,
keep the units of the files that matched, in listing order. No sorting. -/
def loadAvailableMigrations (fileChecksum : String → String)
    (execOutcome : String → Option String) (dir : String) :
    List String → Except String (List Migration)
  | [] => Except.ok []
  | f :: fs =>
    match loadAvailableMigration fileChecksum execOutcome dir f with
    | Except.error e => Except.error e
    | Except.ok none => loadAvailableMigrations fileChecksum execOutcome dir fs
    | Except.ok (some m) =>
      (loadAvailableMigrations fileChecksum execOutcome dir fs).map
        (fun ms => m :: ms)

/-- The version sequence of a loader result, when it did not throw. -/
def loadedVersions (r : Except String (List Migration)) : Option (List Nat) :=
  match r with
  | Except.ok ms => some (ms.map Migration.version)
  | Except.error _ => none

/-- The three field comparisons the reconciliation loop makes between an
applied record and the migration defined at the same index. -/
def RecMatches (am : AppliedRecord) (m : Migration) : Prop :=
  am.version = m.version ∧ am.name = m.name ∧ am.checksum = m.checksum

instance (am : AppliedRecord) (m : Migration) : Decidable (RecMatches am m) := by
  unfold RecMatches; infer_instance

theorem checkOverlap_eq_none_of_matches (H : List AppliedRecord) :
    ∀ D : List Migration, (∀ p ∈ H.zip D, RecMatches p.1 p.2) →
      checkOverlap H D = none := by
  induction H with
  | nil => intro D _; rfl
  | cons am ams ih =>
    intro D h
    cases D with
    | nil => rfl
    | cons m ms =>
      obtain ⟨hv, hn, hc⟩ := h (am, m) (by simp)
      have hv' : am.version = m.version := hv
      have hn' : am.name = m.name := hn
      have hc' : am.checksum = m.checksum := hc
      have htail : ∀ p ∈ ams.zip ms, RecMatches p.1 p.2 := by
        intro p hp
        exact h p (by simp [List.zip_cons_cons, hp])
      simp [checkOverlap, hv', hn', hc', ih ms htail]

theorem checkOverlap_checksum_first (H : List AppliedRecord) :
    ∀ D : List Migration,
      (∀ p ∈ H.zip D, p.1.version = p.2.version ∧ p.1.name = p.2.name) →
      (∃ p ∈ H.zip D, p.1.checksum ≠ p.2.checksum) →
      ∃ a b, a ≠ b ∧ checkOverlap H D = some (CheckError.checksumMismatch a b) := by
  induction H with
  | nil => intro D _ hex; simp at hex
  | cons am ams ih =>
    intro D hvn hex
    cases D with
    | nil => simp at hex
    | cons m ms =>
      obtain ⟨hv, hn⟩ := hvn (am, m) (by simp)
      have hv' : am.version = m.version := hv
      have hn' : am.name = m.name := hn
      by_cases hc : am.checksum = m.checksum
      · have hex' : ∃ p ∈ ams.zip ms, p.1.checksum ≠ p.2.checksum := by
          obtain ⟨p, hp, hpc⟩ := hex
          rcases (by simpa using hp : p = (am, m) ∨ p ∈ ams.zip ms) with hpeq | hptail
          · exact absurd (hpeq ▸ hpc) (by simpa using hc)
          · exact ⟨p, hptail, hpc⟩
        have hvn' : ∀ p ∈ ams.zip ms, p.1.version = p.2.version ∧ p.1.name = p.2.name := by
          intro p hp
          exact hvn p (by simp [List.zip_cons_cons, hp])
        obtain ⟨a, b, hab, hrec⟩ := ih ms hvn' hex'
        exact ⟨a, b, hab, by simp [checkOverlap, hv', hn', hc, hrec]⟩
      · exact ⟨am.checksum, m.checksum, hc, by simp [checkOverlap, hv', hn', hc]⟩

theorem runPending_append (a p : List Migration) (ha : ∀ m ∈ a, m.exec = none) :
    runPending (a ++ p) =
      { writes := a.map (fun m => recordOf m true) ++ (runPending p).writes,
        events := a.map eventOf ++ (runPending p).events,
        result := (runPending p).result } := by
  induction a with
  | nil => simp
  | cons m ms ih =>
    have hm : m.exec = none := ha m (by simp)
    have htail : ∀ m' ∈ ms, m'.exec = none := fun m' hm' => ha m' (by simp [hm'])
    simp [runPending, executeMigration, hm, ih htail]

theorem runPending_writes_length (p : List Migration)
    (h : (runPending p).result = none) :
    (runPending p).writes.length = p.length := by
  induction p with
  | nil => rfl
  | cons m ms ih =>
    cases hm : m.exec with
    | some e => simp [runPending, executeMigration, hm] at h
    | none =>
      simp only [runPending, executeMigration, hm] at h ⊢
      simpa using ih h

theorem getAppliedMigrations_length (rows : List AppliedRecord) :
    (getAppliedMigrations rows).length = rows.length := by
  simp [getAppliedMigrations]

/-- C1: when the applied history is an exact version/name/checksum-matching
prefix of the definition list and its last record (if any) has
success = true, reconciliation returns no error and the run executes
exactly the definitions from index `H.length` on. -/
theorem claim1_exact_matching_history_reconciles (H : List AppliedRecord)
    (D : List Migration) (hlen : H.length ≤ D.length)
    (hmatch : ∀ p ∈ H.zip D, RecMatches p.1 p.2)
    (hlast : ∀ lm ∈ H.getLast?, lm.success = true) :
    checkAppliedMigrations H D = none ∧
      migrateChecked H D = runPending (D.drop H.length) := by
  have hchk : checkAppliedMigrations H D = none := by
    unfold checkAppliedMigrations
    cases hgl : H.getLast? with
    | none => rfl
    | some lm =>
      have hs := hlast lm (by simp [hgl])
      simp [hs, checkOverlap_eq_none_of_matches H D hmatch]
  exact ⟨hchk, by simp [migrateChecked, hchk]⟩

theorem claim1_witness :
    checkAppliedMigrations
        [{ version := 1, name := "A", mtype := "CQL", checksum := "x", success := true }]
        [{ version := 1, name := "A", mtype := "CQL", checksum := "x", exec := none },
         { version := 2, name := "B", mtype := "CQL", checksum := "y", exec := none }] = none ∧
      migrateChecked
        [{ version := 1, name := "A", mtype := "CQL", checksum := "x", success := true }]
        [{ version := 1, name := "A", mtype := "CQL", checksum := "x", exec := none },
         { version := 2, name := "B", mtype := "CQL", checksum := "y", exec := none }] =
        runPending
          ([{ version := 1, name := "A", mtype := "CQL", checksum := "x", exec := none },
            { version := 2, name := "B", mtype := "CQL", checksum := "y", exec := none }].drop 1) :=
  claim1_exact_matching_history_reconciles _ _ (by decide) (by decide) (by decide)

/-- C3: a non-empty applied history whose last record has success = false
makes reconciliation fail with the halted-history error, for every
definition list (so it takes precedence over the mismatch checks), and the
run writes nothing and executes nothing. -/
theorem claim3_halted_history_blocks (H : List AppliedRecord)
    (lm : AppliedRecord) (D : List Migration)
    (hlast : H.getLast? = some lm) (hfail : lm.success = false) :
    checkAppliedMigrations H D = some (CheckError.halted lm.version lm.name) ∧
      migrateChecked H D =
        { writes := [], events := [],
          result := some (MigrateError.check (CheckError.halted lm.version lm.name)) } := by
  have hchk : checkAppliedMigrations H D =
      some (CheckError.halted lm.version lm.name) := by
    simp [checkAppliedMigrations, hlast, hfail]
  exact ⟨hchk, by simp [migrateChecked, hchk]⟩

theorem claim3_witness :
    checkAppliedMigrations
        [{ version := 1, name := "A", mtype := "CQL", checksum := "x", success := false }]
        [{ version := 9, name := "Z", mtype := "CQL", checksum := "q", exec := none }] =
      some (CheckError.halted 1 "A") ∧
      migrateChecked
        [{ version := 1, name := "A", mtype := "CQL", checksum := "x", success := false }]
        [{ version := 9, name := "Z", mtype := "CQL", checksum := "q", exec := none }] =
        { writes := [], events := [],
          result := some (MigrateError.check (CheckError.halted 1 "A")) } :=
  claim3_halted_history_blocks _
    { version := 1, name := "A", mtype := "CQL", checksum := "x", success := false } _
    (by decide) (by decide)

/-- C8: when more migrations were applied than are currently defined, the
applied records beyond the defined list are tolerated: provided the last
record has success = true and the overlapping records match, reconciliation
returns no error. -/
theorem claim8_extra_applied_is_soft (H : List AppliedRecord)
    (D : List Migration) (hlen : D.length < H.length)
    (hmatch : ∀ p ∈ H.zip D, RecMatches p.1 p.2)
    (hlast : ∀ lm ∈ H.getLast?, lm.success = true) :
    checkAppliedMigrations H D = none := by
  unfold checkAppliedMigrations
  cases hgl : H.getLast? with
  | none => rfl
  | some lm =>
    have hs := hlast lm (by simp [hgl])
    simp [hs, checkOverlap_eq_none_of_matches H D hmatch]

theorem claim8_witness :
    checkAppliedMigrations
        [{ version := 1, name := "A", mtype := "CQL", checksum := "x", success := true },
         { version := 2, name := "B", mtype := "CQL", checksum := "y", success := true }]
        [{ version := 1, name := "A", mtype := "CQL", checksum := "x", exec := none }] =
      none :=
  claim8_extra_applied_is_soft _ _ (by decide) (by decide) (by decide)

/-- C9: when reconciliation succeeds and at least as many migrations were
applied as are defined, the pending set is empty and the run completes
successfully with no ledger writes and no appliedMigration events. -/
theorem claim9_empty_pending_noop (H : List AppliedRecord)
    (D : List Migration)
    (hchk : checkAppliedMigrations H D = none)
    (hlen : D.length ≤ H.length) :
    migrateChecked H D = { writes := [], events := [], result := none } := by
  simp [migrateChecked, hchk, List.drop_eq_nil_of_le hlen, runPending]

theorem claim9_witness :
    migrateChecked
        [{ version := 1, name := "A", mtype := "CQL", checksum := "x", success := true }]
        [{ version := 1, name := "A", mtype := "CQL", checksum := "x", exec := none }] =
      { writes := [], events := [], result := none } :=
  claim9_empty_pending_noop _ _ (by decide) (by decide)

/-- Whether a reconciliation outcome is specifically a checksum-mismatch
error. -/
def isChecksumMismatch : Option CheckError → Bool
  | some (CheckError.checksumMismatch _ _) => true
  | _ => false

/-- C2 counterexample: applied history [version 1, name "a", checksum "x",
success true] against definitions [version 2, name "a", checksum "y"]. The
checksums at index 0 differ, yet reconciliation throws the VERSION mismatch
error (the version check runs first), not a checksum-mismatch error. -/
theorem claim2_counterexample :
    checkAppliedMigrations
        [{ version := 1, name := "a", mtype := "CQL", checksum := "x", success := true }]
        [{ version := 2, name := "a", mtype := "CQL", checksum := "y", exec := none }] =
      some (CheckError.versionMismatch 1 2) ∧
      isChecksumMismatch
        (checkAppliedMigrations
          [{ version := 1, name := "a", mtype := "CQL", checksum := "x", success := true }]
          [{ version := 2, name := "a", mtype := "CQL", checksum := "y", exec := none }]) =
        false ∧
      ("x" : String) ≠ "y" := by
  refine ⟨rfl, rfl, ?_⟩
  decide

/-- C2 (amended): when the last applied record has success = true, versions
and names agree at every index where both an applied record and a defined
migration exist, and the checksums differ at some such index, then
reconciliation throws a checksum-mismatch error (with distinct applied and
defined checksums) and the run executes no unit and writes no record. -/
theorem claim2_checksum_drift_detected (H : List AppliedRecord)
    (D : List Migration)
    (hlast : ∀ lm ∈ H.getLast?, lm.success = true)
    (hvn : ∀ p ∈ H.zip D, p.1.version = p.2.version ∧ p.1.name = p.2.name)
    (hex : ∃ p ∈ H.zip D, p.1.checksum ≠ p.2.checksum) :
    ∃ a b, a ≠ b ∧
      checkAppliedMigrations H D = some (CheckError.checksumMismatch a b) ∧
      migrateChecked H D =
        { writes := [], events := [],
          result := some (MigrateError.check (CheckError.checksumMismatch a b)) } := by
  obtain ⟨a, b, hab, hco⟩ := checkOverlap_checksum_first H D hvn hex
  have hne : H ≠ [] := by
    intro hnil
    subst hnil
    simp at hex
  obtain ⟨lm, hgl⟩ : ∃ lm, H.getLast? = some lm := by
    cases hgl : H.getLast? with
    | none => exact absurd (List.getLast?_eq_none_iff.mp hgl) hne
    | some lm => exact ⟨lm, rfl⟩
  have hs := hlast lm (by simp [hgl])
  have hchk : checkAppliedMigrations H D = some (CheckError.checksumMismatch a b) := by
    simp [checkAppliedMigrations, hgl, hs, hco]
  exact ⟨a, b, hab, hchk, by simp [migrateChecked, hchk]⟩

theorem claim2_witness :
    ∃ a b, a ≠ b ∧
      checkAppliedMigrations
          [{ version := 1, name := "a", mtype := "CQL", checksum := "x", success := true }]
          [{ version := 1, name := "a", mtype := "CQL", checksum := "y", exec := none }] =
        some (CheckError.checksumMismatch a b) ∧
      migrateChecked
          [{ version := 1, name := "a", mtype := "CQL", checksum := "x", success := true }]
          [{ version := 1, name := "a", mtype := "CQL", checksum := "y", exec := none }] =
        { writes := [], events := [],
          result := some (MigrateError.check (CheckError.checksumMismatch a b)) } :=
  claim2_checksum_drift_detected
    [{ version := 1, name := "a", mtype := "CQL", checksum := "x", success := true }]
    [{ version := 1, name := "a", mtype := "CQL", checksum := "y", exec := none }]
    (by decide) (by decide)
    ⟨({ version := 1, name := "a", mtype := "CQL", checksum := "x", success := true },
      { version := 1, name := "a", mtype := "CQL", checksum := "y", exec := none }),
     by decide, by decide⟩

/-- C4: when reconciliation passes and the pending tail consists of units
`a` that all succeed, then a unit `b` whose payload throws `e`, then
further units `c`: the run writes exactly the records of `a` (success =
true) followed by the record of `b` (success = false) — `b`'s record is
persisted even though its payload threw — emits applied events only for
`a`, never touches `c`, and surfaces `b`'s original error. -/
theorem claim4_failfast_records_failure (H : List AppliedRecord)
    (D : List Migration) (a : List Migration) (b : Migration)
    (c : List Migration) (e : String)
    (hchk : checkAppliedMigrations H D = none)
    (hpend : D.drop H.length = a ++ b :: c)
    (ha : ∀ m ∈ a, m.exec = none) (hb : b.exec = some e) :
    migrateChecked H D =
      { writes := a.map (fun m => recordOf m true) ++ [recordOf b false],
        events := a.map eventOf,
        result := some (MigrateError.execution e) } ∧
      (a.map (fun m => recordOf m true) ++ [recordOf b false]).length = a.length + 1 := by
  constructor
  · have hbc : runPending (b :: c) =
        { writes := [recordOf b false], events := [],
          result := some (MigrateError.execution e) } := by
      simp [runPending, executeMigration, hb]
    simp [migrateChecked, hchk, hpend, runPending_append a (b :: c) ha, hbc]
  · simp

theorem claim4_witness :
    migrateChecked []
        [{ version := 1, name := "A", mtype := "CQL", checksum := "x", exec := none },
         { version := 2, name := "B", mtype := "CQL", checksum := "y", exec := some "boom" },
         { version := 3, name := "C", mtype := "CQL", checksum := "z", exec := none }] =
      { writes :=
          [{ version := 1, name := "A", mtype := "CQL", checksum := "x", exec := none }].map
            (fun m => recordOf m true) ++
          [recordOf { version := 2, name := "B", mtype := "CQL", checksum := "y",
                      exec := some "boom" } false],
        events :=
          [{ version := 1, name := "A", mtype := "CQL", checksum := "x", exec := none }].map
            eventOf,
        result := some (MigrateError.execution "boom") } ∧
      ([{ version := 1, name := "A", mtype := "CQL", checksum := "x", exec := none }].map
          (fun m => recordOf m true) ++
        [recordOf { version := 2, name := "B", mtype := "CQL", checksum := "y",
                    exec := some "boom" } false]).length =
        ([{ version := 1, name := "A", mtype := "CQL", checksum := "x", exec := none }] :
          List Migration).length + 1 :=
  claim4_failfast_records_failure [] _
    [{ version := 1, name := "A", mtype := "CQL", checksum := "x", exec := none }]
    { version := 2, name := "B", mtype := "CQL", checksum := "y", exec := some "boom" }
    [{ version := 3, name := "C", mtype := "CQL", checksum := "z", exec := none }]
    "boom" (by decide) (by decide) (by decide) (by decide)

/-- C7: reading the applied history sorts the ledger rows by ascending
version, keeps all of them (the result is a permutation of the rows read —
no filtering), and maps the empty history to the empty list. -/
theorem claim7_history_sorted_complete (rows : List AppliedRecord) :
    ((getAppliedMigrations rows).Pairwise
      (fun r1 r2 => r1.version ≤ r2.version)) ∧
      (getAppliedMigrations rows).Perm rows ∧
      getAppliedMigrations [] = [] := by
  refine ⟨?_, List.mergeSort_perm rows _, by simp [getAppliedMigrations]⟩
  have h := @List.sorted_mergeSort AppliedRecord
    (fun r1 r2 => decide (r1.version ≤ r2.version))
    (fun x y z hxy hyz => by
      simp only [decide_eq_true_eq] at hxy hyz ⊢
      omega)
    (fun x y => by
      simp only [Bool.or_eq_true, decide_eq_true_eq]
      omega)
    rows
  exact h.imp (fun hxy => by simpa using hxy)

/-- C5: after a run that completes successfully, running again with the
same definitions — the ledger now holding the old rows plus the first
run's writes — writes no ledger record and emits no applied event. -/
theorem claim5_second_run_writes_nothing (rows : List AppliedRecord)
    (D : List Migration)
    (h : (migrate rows D).result = none) :
    (migrate (rows ++ (migrate rows D).writes) D).writes = [] ∧
      (migrate (rows ++ (migrate rows D).writes) D).events = [] := by
  have hlen2 : D.length ≤ (rows ++ (migrate rows D).writes).length := by
    cases hchk : checkAppliedMigrations (getAppliedMigrations rows) D with
    | some e => simp [migrate, migrateChecked, hchk] at h
    | none =>
      have hw : (migrate rows D).writes =
          (runPending (D.drop (getAppliedMigrations rows).length)).writes := by
        simp [migrate, migrateChecked, hchk]
      have hr : (runPending (D.drop (getAppliedMigrations rows).length)).result
          = none := by
        simpa [migrate, migrateChecked, hchk] using h
      have hl := runPending_writes_length _ hr
      rw [List.length_append, hw, hl, List.length_drop,
        getAppliedMigrations_length]
      omega
  generalize hrows2 : rows ++ (migrate rows D).writes = rows2 at hlen2 ⊢
  have hdrop : D.drop (getAppliedMigrations rows2).length = [] := by
    apply List.drop_eq_nil_of_le
    rw [getAppliedMigrations_length]
    exact hlen2
  cases hchk2 : checkAppliedMigrations (getAppliedMigrations rows2) D with
  | some e => exact ⟨by simp [migrate, migrateChecked, hchk2],
      by simp [migrate, migrateChecked, hchk2]⟩
  | none => exact ⟨by simp [migrate, migrateChecked, hchk2, hdrop, runPending],
      by simp [migrate, migrateChecked, hchk2, hdrop, runPending]⟩

theorem claim5_witness :
    (migrate
        ([] ++ (migrate []
          [{ version := 1, name := "A", mtype := "CQL", checksum := "x",
             exec := none }]).writes)
        [{ version := 1, name := "A", mtype := "CQL", checksum := "x",
           exec := none }]).writes = [] ∧
      (migrate
        ([] ++ (migrate []
          [{ version := 1, name := "A", mtype := "CQL", checksum := "x",
             exec := none }]).writes)
        [{ version := 1, name := "A", mtype := "CQL", checksum := "x",
           exec := none }]).events = [] :=
  claim5_second_run_writes_nothing []
    [{ version := 1, name := "A", mtype := "CQL", checksum := "x", exec := none }]
    (by simp [migrate, migrateChecked, getAppliedMigrations,
      checkAppliedMigrations, runPending, executeMigration])

theorem loadAvailableMigrations_versions (fc : String → String)
    (eo : String → Option String) (dir : String) :
    ∀ (L : List String) (ms : List Migration),
      loadAvailableMigrations fc eo dir L = Except.ok ms →
      ms.map Migration.version =
        (L.filterMap parseMigrationFilename).map (fun t => t.1) := by
  intro L
  induction L with
  | nil =>
    intro ms h
    simp [loadAvailableMigrations] at h
    simp [← h]
  | cons f fs ih =>
    intro ms h
    cases hp : parseMigrationFilename f with
    | none =>
      rw [List.filterMap_cons_none hp]
      simp only [loadAvailableMigrations, loadAvailableMigration, hp] at h
      exact ih ms h
    | some t =>
      obtain ⟨v, raw, ext⟩ := t
      cases hpn : prettyName raw with
      | none =>
        simp [loadAvailableMigrations, loadAvailableMigration, hp, hpn] at h
      | some nm =>
        simp only [loadAvailableMigrations, loadAvailableMigration, hp, hpn] at h
        cases hrec : loadAvailableMigrations fc eo dir fs with
        | error e => rw [hrec] at h; simp [Except.map] at h
        | ok ms' =>
          rw [hrec] at h
          simp only [Except.map] at h
          cases h
          simp [List.filterMap_cons, hp, ih ms' hrec]

/-- C6 counterexample: the directory listing ["2__a.cql", "1__b.cql"] (two
files that both match the naming pattern, returned with version 2 first)
loads to units with version sequence [2, 1], which is not ascending —
`loadAvailableMigrations` keeps listing order and never sorts. -/
theorem claim6_counterexample :
    loadedVersions
        (loadAvailableMigrations (fun _ => "") (fun _ => none) "migrations"
          ["2__a.cql", "1__b.cql"]) = some [2, 1] ∧
      ¬ ([2, 1] : List Nat).Pairwise (fun a b => a ≤ b) := by
  refine ⟨by decide, by decide⟩

/-- C6 (amended): the available-migrations list preserves the order of the
directory listing — its version sequence equals the versions of the
matching files in listing order — so it is ordered by ascending numeric
version exactly when the directory listing returns the matching files in
ascending version order (it is NOT re-sorted for other listing orders). -/
theorem claim6_listing_order_preserved (fc : String → String)
    (eo : String → Option String) (dir : String) (L : List String)
    (ms : List Migration)
    (hok : loadAvailableMigrations fc eo dir L = Except.ok ms)
    (hsorted : ((L.filterMap parseMigrationFilename).map
      (fun t => t.1)).Pairwise (fun a b => a ≤ b)) :
    ms.map Migration.version =
        (L.filterMap parseMigrationFilename).map (fun t => t.1) ∧
      (ms.map Migration.version).Pairwise (fun a b => a ≤ b) := by
  have hv := loadAvailableMigrations_versions fc eo dir L ms hok
  exact ⟨hv, hv ▸ hsorted⟩

theorem claim6_witness :
    ([{ version := 1, name := "A", mtype := "CQL", checksum := "", exec := none },
      { version := 2, name := "B", mtype := "CQL", checksum := "", exec := none }] :
        List Migration).map Migration.version =
        ((["1__a.cql", "2__b.cql"].filterMap parseMigrationFilename).map
          (fun t => t.1)) ∧
      (([{ version := 1, name := "A", mtype := "CQL", checksum := "", exec := none },
         { version := 2, name := "B", mtype := "CQL", checksum := "", exec := none }] :
          List Migration).map Migration.version).Pairwise (fun a b => a ≤ b) :=
  claim6_listing_order_preserved (fun _ => "") (fun _ => none) "migrations"
    ["1__a.cql", "2__b.cql"]
    [{ version := 1, name := "A", mtype := "CQL", checksum := "", exec := none },
     { version := 2, name := "B", mtype := "CQL", checksum := "", exec := none }]
    rfl (by decide)

/-- C10: a filename the naming pattern rejects is skipped: loading it
returns no unit and no error, and the available-migrations list computed
from any listing containing it equals the list computed with it removed. -/
theorem claim10_nonmatching_files_skipped (fc : String → String)
    (eo : String → Option String) (dir f : String) (l1 l2 : List String)
    (h : parseMigrationFilename f = none) :
    loadAvailableMigration fc eo dir f = Except.ok none ∧
      loadAvailableMigrations fc eo dir (l1 ++ f :: l2) =
        loadAvailableMigrations fc eo dir (l1 ++ l2) := by
  have h1 : loadAvailableMigration fc eo dir f = Except.ok none := by
    simp [loadAvailableMigration, h]
  refine ⟨h1, ?_⟩
  induction l1 with
  | nil => simp [loadAvailableMigrations, loadAvailableMigration, h]
  | cons g gs ih =>
    simp only [List.cons_append, loadAvailableMigrations, List.append_eq, ih]

theorem claim10_witness :
    loadAvailableMigration (fun _ => "") (fun _ => none) "migrations"
        "readme.txt" = Except.ok none ∧
      loadAvailableMigrations (fun _ => "") (fun _ => none) "migrations"
          (["1__a.cql"] ++ "readme.txt" :: ["2__b.cql"]) =
        loadAvailableMigrations (fun _ => "") (fun _ => none) "migrations"
          (["1__a.cql"] ++ ["2__b.cql"]) :=
  claim10_nonmatching_files_skipped (fun _ => "") (fun _ => none) "migrations"
    "readme.txt" ["1__a.cql"] ["2__b.cql"] (by decide)
